import Mathlib

/-!
Verification of the cryptolens backtesting core.

This file gives a shallow embedding, in Lean 4, of the signal, strategy,
portfolio-simulation and metric code of `app/services/signals.py`,
`app/services/backtester.py` and `app/api/backtest.py`, and proves or refutes
the behavioural claims made by the specification.

Modelling conventions:
* a pandas float cell is `Option ℚ`: `none` is NaN / a missing value, `some q`
  an exact value (float arithmetic is modelled as exact rational arithmetic);
* a pandas Series aligned to the date index is a `List (Option ℚ)` (or
  `List ℚ` once the code has filled the missing values);
* comparisons against NaN are `false`, arithmetic on NaN yields NaN, exactly
  as in pandas;
* dates of a DatetimeIndex are integer day numbers, so that a timedelta in
  days is an integer subtraction.
-/

/-- Cell of a pandas float Series: `none` models NaN / missing. -/
abbrev FVal := Option ℚ

/-- NaN-propagating addition, as in pandas: `NaN + x = NaN`. -/
def fadd (a b : FVal) : FVal :=
  match a, b with
  | some x, some y => some (x + y)
  | _, _ => none

/-- Multiplication of a (possibly missing) cell by a scalar; NaN propagates. -/
def fmulC (c : ℚ) (x : FVal) : FVal := x.map (fun v => v * c)

/-- Comparison `x > c` of a pandas cell with a scalar: false on NaN. -/
def fgt (x : FVal) (c : ℚ) : Bool :=
  match x with
  | some v => decide (c < v)
  | none => false

/-- Comparison `x < c` of a pandas cell with a scalar: false on NaN. -/
def flt (x : FVal) (c : ℚ) : Bool :=
  match x with
  | some v => decide (v < c)
  | none => false

/-- Scalar clamp to the interval `[-1, 1]`, the effect of `.clip(-1, 1)` on a
    present value. -/
def clip1 (v : ℚ) : ℚ := max (-1) (min 1 v)

/-- Series-cell clamp `.clip(-1, 1)`: NaN stays NaN. -/
def fclip1 (x : FVal) : FVal := x.map clip1

/-! ## Composite score (`SignalEngine._compute_composite`) -/

/-- RSI sub-score lambda from `_compute_composite`:
    `-1.0 if x > 70 else +1.0 if x < 30 else (50 - x) / 50 * 0.5`.
    On NaN both comparisons are false and the arithmetic tail yields NaN. -/
def rsiSub (x : FVal) : FVal :=
  if fgt x 70 then some (-1)
  else if flt x 30 then some 1
  else x.map (fun v => (50 - v) / 50 * (1 / 2))

/-- Bollinger %B sub-score lambda from `_compute_composite`:
    `-1.0 if x > 0.9 else +1.0 if x < 0.1 else (0.5 - x)`. -/
def bbSub (x : FVal) : FVal :=
  if fgt x (9 / 10) then some (-1)
  else if flt x (1 / 10) then some 1
  else x.map (fun v => 1 / 2 - v)

/-- Fear & Greed contrarian sub-score lambda from `_compute_composite`:
    `+1.0 if x < 20 else -1.0 if x > 80 else (50 - x) / 50 * 0.5`. -/
def fgSub (x : FVal) : FVal :=
  if flt x 20 then some 1
  else if fgt x 80 then some (-1)
  else x.map (fun v => (50 - v) / 50 * (1 / 2))

/-- Trailing maximum of absolute values over the 50-element window ending at
    index `t`, i.e. `series.abs().rolling(50, min_periods=1).max()` at `t`
    for an all-present series. -/
def rollMaxAbs (l : List ℚ) (t : ℕ) : ℚ :=
  ((l.take (t + 1)).drop (t + 1 - 50)).foldl (fun a b => max a |b|) 0

/-- Denominator used to normalise the MACD histogram:
    the rolling max of absolute values with `.replace(0, 1)`. -/
def macdDenom (l : List ℚ) (t : ℕ) : ℚ :=
  if rollMaxAbs l t = 0 then 1 else rollMaxAbs l t

/-- MACD-histogram contribution series of `_compute_composite`:
    after `fillna(0)` the column `md` is all-present, and the contribution at
    `t` is `((md / max_val).clip(-1, 1) * 0.25)`. -/
def macdContrib (md : List ℚ) : List FVal :=
  (List.range md.length).map
    (fun t => some (clip1 (md.getD t 0 / macdDenom md t) * (1 / 4)))

/-- Composite score of `SignalEngine._compute_composite`, over an index of
    length `n`.  The four `has*` flags model `"col" in df` (column presence for
    the whole frame, which is how the code tests availability); the four lists
    are the column values on the index.  The `sma_50` branch of the source is
    dead code (`pass` in both arms) and contributes nothing.  The final score
    is divided by the accumulated scalar `weights` when positive and clamped
    with `.clip(-1, 1)`. -/
def computeComposite (hasRsi hasMacd hasBb hasFg : Bool)
    (rsi macd bb fg : List FVal) (n : ℕ) : List FVal :=
  let score0 : List FVal := List.replicate n (some 0)
  let s1 := if hasRsi then List.zipWith fadd score0 ((rsi.map rsiSub).map (fmulC (1 / 4))) else score0
  let md : List ℚ := macd.map (fun x => x.getD 0)
  let s2 := if hasMacd then List.zipWith fadd s1 (macdContrib md) else s1
  let s3 := if hasBb then List.zipWith fadd s2 ((bb.map bbSub).map (fmulC (1 / 5))) else s2
  let s4 := if hasFg then List.zipWith fadd s3 ((fg.map fgSub).map (fmulC (3 / 20))) else s3
  let w : ℚ := (if hasRsi then 1 / 4 else 0) + (if hasMacd then 1 / 4 else 0)
      + (if hasBb then 1 / 5 else 0) + (if hasFg then 3 / 20 else 0)
  (if 0 < w then s4.map (fun x => x.map (fun v => v / w)) else s4).map fclip1

/-- Pointwise value of `computeComposite` at index `t` (same contributions in
    the same order, written per date instead of per column). -/
def compositeAt (hasRsi hasMacd hasBb hasFg : Bool)
    (rsi macd bb fg : List FVal) (t : ℕ) : FVal :=
  let md : List ℚ := macd.map (fun x => x.getD 0)
  let s1 := if hasRsi then fadd (some 0) (fmulC (1 / 4) (rsiSub (rsi.getD t none))) else some 0
  let s2 := if hasMacd then fadd s1 (some (clip1 (md.getD t 0 / macdDenom md t) * (1 / 4))) else s1
  let s3 := if hasBb then fadd s2 (fmulC (1 / 5) (bbSub (bb.getD t none))) else s2
  let s4 := if hasFg then fadd s3 (fmulC (3 / 20) (fgSub (fg.getD t none))) else s3
  let w : ℚ := (if hasRsi then 1 / 4 else 0) + (if hasMacd then 1 / 4 else 0)
      + (if hasBb then 1 / 5 else 0) + (if hasFg then 3 / 20 else 0)
  fclip1 (if 0 < w then (s4.map (fun v => v / w)) else s4)

/-- Pure RSI sub-score on a present value (the same lambda as `rsiSub`). -/
def rsiSubQ (v : ℚ) : ℚ := if 70 < v then -1 else if v < 30 then 1 else (50 - v) / 50 * (1 / 2)

/-- Pure Bollinger sub-score on a present value. -/
def bbSubQ (v : ℚ) : ℚ := if 9 / 10 < v then -1 else if v < 1 / 10 then 1 else 1 / 2 - v

/-- Pure Fear & Greed sub-score on a present value. -/
def fgSubQ (v : ℚ) : ℚ := if v < 20 then 1 else if 80 < v then -1 else (50 - v) / 50 * (1 / 2)

/-- Trailing rolling max of absolute values over the last 50 dates, skipping
    missing cells (used only by the specification-side composite below). -/
def rollMaxAbsF (l : List FVal) (t : ℕ) : ℚ :=
  ((l.take (t + 1)).drop (t + 1 - 50)).foldl
    (fun a x => match x with | some v => max a |v| | none => a) 0

/-- Modelled from the spec (section 4.3): per-date composite score in which "a
    missing indicator is excluded from both numerator and weight denominator
    that date; if all are missing, score = 0", the weighted sum over the
    indicators available that date being divided by the sum of exactly their
    weights and clamped to `[-1, 1]`. -/
def perDateComposite (rsi macd bb fg : List FVal) (n : ℕ) : List FVal :=
  (List.range n).map (fun t =>
    let items : List (ℚ × ℚ) :=
      (match rsi.getD t none with
       | some v => [(1 / 4, rsiSubQ v)]
       | none => []) ++
      (match macd.getD t none with
       | some v => [(1 / 4, clip1 (v / (if rollMaxAbsF macd t = 0 then 1 else rollMaxAbsF macd t)))]
       | none => []) ++
      (match bb.getD t none with
       | some v => [(1 / 5, bbSubQ v)]
       | none => []) ++
      (match fg.getD t none with
       | some v => [(3 / 20, fgSubQ v)]
       | none => [])
    let wsum : ℚ := (items.map Prod.fst).sum
    let num : ℚ := (items.map (fun p => p.1 * p.2)).sum
    some (clip1 (if 0 < wsum then num / wsum else 0)))

/-! ## Strategies (`backtester.py`) -/

/-- Exposure series of `CompositeScoreStrategy.generate_signals`.  The source
    initialises `position` to the all-zero integer Series, sets `1` where
    `score > 0.15`, sets `0` where `score < -0.15` (which rewrites cells that
    are already `0`), and ends with `.ffill().fillna(0)` on a Series that
    contains no missing value (hence the identity).  `score` is first aligned
    and `fillna(0)`-filled. -/
def compositeSignals (score0 : List FVal) : List ℕ :=
  let score : List ℚ := score0.map (fun x => x.getD 0)
  let pos1 : List ℕ := score.map (fun s => if (15 : ℚ) / 100 < s then 1 else 0)
  let pos2 : List ℕ := List.zipWith (fun s p => if s < (-15 : ℚ) / 100 then 0 else p) score pos1
  pos2

/-- Step of the two-threshold state machine shared by the RSI and Fear & Greed
    strategies: enter (state `true`) below `lo`, exit above `hi`, else hold. -/
def twoStateStep (lo hi : ℚ) (inPos : Bool) (x : ℚ) : Bool :=
  if !inPos && decide (x < lo) then true
  else if inPos && decide (hi < x) then false
  else inPos

/-- Per-row loop of the stateful strategies: update the state with the current
    reading, then record `1` when in position else `0`. -/
def twoStateRun (lo hi : ℚ) (inPos : Bool) : List ℚ → List ℕ
  | [] => []
  | x :: xs =>
    let s := twoStateStep lo hi inPos x
    (if s then 1 else 0) :: twoStateRun lo hi s xs

/-- Exposure series of `RSIMeanReversionStrategy.generate_signals`:
    RSI aligned and `fillna(50)`-filled, enter when `rsi < 30`, exit when
    `rsi > 70`. -/
def rsiSignals (rsi : List FVal) : List ℕ :=
  twoStateRun 30 70 false (rsi.map (fun x => x.getD 50))

/-- Exposure series of `FearGreedStrategy.generate_signals`: index aligned and
    `fillna(50)`-filled, enter when `fg < 25`, exit when `fg > 75`. -/
def fearGreedSignals (fg : List FVal) : List ℕ :=
  twoStateRun 25 75 false (fg.map (fun x => x.getD 50))

/-- Exposure series of `GoldenCrossStrategy.generate_signals`:
    `(sma50 > sma200).astype(float).fillna(0)`; a comparison with a missing
    value is false, so any missing SMA yields exposure `0`. -/
def goldenCrossSignals (sma50 sma200 : List FVal) : List ℕ :=
  List.zipWith
    (fun a b =>
      match a, b with
      | some x, some y => if y < x then 1 else 0
      | _, _ => 0)
    sma50 sma200

/-! ## Portfolio simulation (`BacktestEngine._simulate_portfolio`) -/

/-- Day-over-day differences of the exposure series with the first difference
    filled by the first value: `signals.diff().fillna(signals)`. -/
def diffFill (signals : List ℚ) : List ℚ :=
  List.zipWith (fun cur prev => cur - prev) signals (0 :: signals)

/-- Daily close-to-close returns with the first value filled by `0`:
    `close.pct_change().fillna(0)`. -/
def pctChange (closes : List ℚ) : List ℚ :=
  match closes with
  | [] => []
  | _ :: rest => 0 :: List.zipWith (fun prev cur => cur / prev - 1) closes rest

/-- Portfolio-value series of `BacktestEngine._simulate_portfolio`: cost is
    charged on every exposure change, yesterday's exposure earns today's asset
    return, and the equity curve is
    `initial_capital * (1 + strategy_returns).cumprod()`. -/
def simulatePortfolio (closes signals : List ℚ)
    (capital commission slippage : ℚ) : List ℚ :=
  let posChanges := diffFill signals
  let entries := posChanges.map (fun d => decide (0 < d))
  let exits := posChanges.map (fun d => decide (d < 0))
  let assetRets := pctChange closes
  let cost := List.zipWith
    (fun (e : Bool) (x : Bool) => if e || x then commission + slippage else 0) entries exits
  let stratRets := List.zipWith (fun a b => a - b)
    (List.zipWith (fun a b => a * b) (0 :: signals) assetRets) cost
  (stratRets.scanl (fun acc r => acc * (1 + r)) capital).tail

/-- Entry-flag series, `position_changes > 0`. -/
def entryFlags (signals : List ℚ) : List Bool :=
  (diffFill signals).map (fun d => decide (0 < d))

/-- Exit-flag series, `position_changes < 0`. -/
def exitFlags (signals : List ℚ) : List Bool :=
  (diffFill signals).map (fun d => decide (d < 0))

/-! ## Trade log (`BacktestEngine._build_trade_log`) -/

/-- Trade record written by `_build_trade_log`.  Dates are integer day
    numbers; `durationDays` is the calendar-day difference of the pandas
    timestamps. -/
structure Trade where
  entryDate : ℤ
  exitDate : ℤ
  entryPrice : ℚ
  exitPrice : ℚ
  ret : ℚ
  durationDays : ℤ
  profitable : Bool
deriving DecidableEq, Repr

/-- Python `round(x, 6)` on the exact rational value (ties, which in the
    float code are resolved to even, do not occur in any value considered
    here). -/
def roundTo6 (x : ℚ) : ℚ := ((round (x * 1000000) : ℤ) : ℚ) / 1000000

/-- Trade dictionary built when a position opened at `(ed, ep)` is closed at
    `(xd, xp)`: prices and the return are rounded to 6 decimals,
    `duration_days` is the day difference, `profitable` compares the
    unrounded return with `0`. -/
def mkTrade (ed : ℤ) (ep : ℚ) (xd : ℤ) (xp : ℚ) : Trade :=
  let r := (xp - ep) / ep
  ⟨ed, xd, roundTo6 ep, roundTo6 xp, roundTo6 r, xd - ed, decide (0 < r)⟩

/-- Row of the portfolio frame as consumed by `_build_trade_log`:
    (date, close, is_entry, is_exit). -/
abbrev PRow := ℤ × ℚ × Bool × Bool

/-- Main loop of `_build_trade_log`: open on an entry flag when flat, close on
    an exit flag when in a position; returns the closed trades and the
    still-open entry, if any. -/
def tradeScan (st : Option (ℤ × ℚ)) : List PRow → List Trade × Option (ℤ × ℚ)
  | [] => ([], st)
  | (d, c, en, ex) :: rest =>
    match st with
    | none => if en then tradeScan (some (d, c)) rest else tradeScan none rest
    | some (ed, ep) =>
      if ex then
        let res := tradeScan none rest
        (mkTrade ed ep d c :: res.1, res.2)
      else tradeScan (some (ed, ep)) rest

/-- Trade log of `_build_trade_log`: the scan above, plus the force-close of a
    still-open position at the final row's date and close. -/
def buildTradeLog (rows : List PRow) : List Trade :=
  match tradeScan none rows with
  | (ts, none) => ts
  | (ts, some (ed, ep)) =>
    match rows.getLast? with
    | none => ts
    | some (ld, lc, _, _) => ts ++ [mkTrade ed ep ld lc]

/-- Portfolio rows with the entry/exit flags the simulation derives from the
    exposure series: `prev` is the previous row's exposure (`0` before the
    first row, matching `diff().fillna(signals)`), the flags are
    `prev < e` and `e < prev`. -/
def flagRows (prev : ℕ) : List (ℤ × ℚ × ℕ) → List PRow
  | [] => []
  | (d, c, e) :: rest => (d, c, decide (prev < e), decide (e < prev)) :: flagRows e rest

/-- Modelled on the spec's words (section 4.5): scan the exposure transitions
    themselves — open a trade at a `0→1` crossing with entry price that day's
    close, close it at a `1→0` crossing. -/
def specScan (st : Option (ℤ × ℚ)) : List (ℤ × ℚ × ℕ) → List Trade × Option (ℤ × ℚ)
  | [] => ([], st)
  | (d, c, e) :: rest =>
    match st with
    | none => if e = 1 then specScan (some (d, c)) rest else specScan none rest
    | some (ed, ep) =>
      if e = 0 then
        let res := specScan none rest
        (mkTrade ed ep d c :: res.1, res.2)
      else specScan (some (ed, ep)) rest

/-- Modelled on the spec's words (section 4.5): trade log as transition scan
    plus force-close at the final date when still open. -/
def specTradeLog (rows : List (ℤ × ℚ × ℕ)) : List Trade :=
  match specScan none rows with
  | (ts, none) => ts
  | (ts, some (ed, ep)) =>
    match rows.getLast? with
    | none => ts
    | some (ld, lc, _) => ts ++ [mkTrade ed ep ld lc]

/-! ## Metrics (`BacktestEngine._compute_metrics`) -/

/-- Running maximum helper: pandas `cummax` after the first element. -/
def cummaxAux (m : ℚ) : List ℚ → List ℚ
  | [] => []
  | x :: xs => max m x :: cummaxAux (max m x) xs

/-- Running maximum `pv.cummax()`. -/
def cummax : List ℚ → List ℚ
  | [] => []
  | x :: xs => x :: cummaxAux x xs

/-- Drawdown series `(pv - rolling_max) / rolling_max`. -/
def drawdowns (pv : List ℚ) : List ℚ :=
  List.zipWith (fun v m => (v - m) / m) pv (cummax pv)

/-- Maximum drawdown `float(drawdown.min())`; the `getD 0` default is never
    reached on the nonempty curves the engine produces. -/
def maxDrawdown (pv : List ℚ) : ℚ := (drawdowns pv).min?.getD 0

/-- Mean of a list, `Series.mean()` on an all-present series. -/
def listMean (l : List ℚ) : ℚ := l.sum / l.length

/-- Sample variance with `ddof = 1` — the square of pandas `Series.std()`;
    `none` models the NaN that pandas returns for fewer than two elements. -/
def sampleVar (l : List ℚ) : Option ℚ :=
  if l.length < 2 then none
  else some ((l.map (fun x => (x - listMean l) ^ 2)).sum / (l.length - 1))

/-- Negative daily returns, `daily_returns[daily_returns < 0]`. -/
def downside (rets : List ℚ) : List ℚ := rets.filter (fun x => x < 0)

/-- Sortino ratio of `_compute_metrics`.  `downside_std` is
    `downside.std() * sqrt(365)`, so the guard `downside_std > 0` holds
    exactly when the sample variance of the downside returns is defined and
    positive.  When the guard fails the code returns `0.0`, modelled
    `some 0`; when it holds the code returns
    `(annualized_return - RISK_FREE_RATE) / downside_std`, an irrational
    value modelled by `none` (no claim here touches that branch's value). -/
def sortinoRatio (rets : List ℚ) : Option ℚ :=
  match sampleVar (downside rets) with
  | none => some 0
  | some v => if 0 < v then none else some 0

/-! ## Strategy comparison (`app/api/backtest.py::compare_strategies`) -/

/-- Outcome of one strategy variant's run, as the comparison endpoint sees
    it: a result carrying its sharpe ratio, or the swallowed exception. -/
structure BResult where
  tag : ℕ
  sharpe : ℚ
deriving DecidableEq, Repr

/-- Descending-sharpe order used by `results.sort(key=..., reverse=True)`. -/
def sharpeGe (a b : BResult) : Prop := b.sharpe ≤ a.sharpe

instance : DecidableRel sharpeGe := fun a b => inferInstanceAs (Decidable (b.sharpe ≤ a.sharpe))

instance : IsTotal BResult sharpeGe := ⟨fun a b => le_total b.sharpe a.sharpe⟩

instance : IsTrans BResult sharpeGe := ⟨fun _ _ _ h1 h2 => le_trans h2 h1⟩

/-- Results of the variants whose run succeeded, in variant order — the loop
    body appends on success and `continue`s on any exception. -/
def successes (runs : List (Except Unit BResult)) : List BResult :=
  runs.filterMap (fun r => match r with | .ok v => some v | .error _ => none)

/-- Comparison endpoint `compare_strategies`: run every variant, keep the
    successful results, fail (HTTP 500) when none succeeded, otherwise sort
    by sharpe ratio descending and return. -/
def compareStrategies (runs : List (Except Unit BResult)) : Except Unit (List BResult) :=
  let ok := successes runs
  if ok.isEmpty then .error () else .ok (List.insertionSort sharpeGe ok)

/-! ## Helper lemmas -/

theorem head?_scanl (f : ℚ → ℚ → ℚ) (b : ℚ) (l : List ℚ) :
    (List.scanl f b l).head? = some b := by
  cases l <;> simp [List.scanl]

theorem foldl_min_nonpos (xs : List ℚ) : ∀ a : ℚ, a ≤ 0 → (∀ x ∈ xs, x ≤ 0) →
    xs.foldl min a ≤ 0 := by
  induction xs with
  | nil => intro a ha _; simpa using ha
  | cons y ys ih =>
    intro a ha hall
    simp only [List.foldl_cons]
    exact ih (min a y) (le_trans (min_le_left _ _) ha)
      (fun x hx => hall x (List.mem_cons_of_mem _ hx))

theorem zip_dd_nonpos (xs : List ℚ) : ∀ m : ℚ, 0 < m → (∀ x ∈ xs, 0 < x) →
    ∀ d ∈ List.zipWith (fun v mx => (v - mx) / mx) xs (cummaxAux m xs), d ≤ 0 := by
  induction xs with
  | nil => intro m _ _ d hd; simp [cummaxAux] at hd
  | cons y ys ih =>
    intro m hm hall d hd
    simp only [cummaxAux, List.zipWith_cons_cons, List.mem_cons] at hd
    rcases hd with hd | hd
    · subst hd
      have hy : (0 : ℚ) < y := hall y (List.mem_cons_self _ _)
      have hmax : (0 : ℚ) < max m y := lt_of_lt_of_le hm (le_max_left _ _)
      exact div_nonpos_of_nonpos_of_nonneg (sub_nonpos.2 (le_max_right _ _)) (le_of_lt hmax)
    · exact ih (max m y) (lt_of_lt_of_le hm (le_max_left _ _))
        (fun x hx => hall x (List.mem_cons_of_mem _ hx)) d hd

/-! ## C1 -/

/-- C1: the first equity value is `initial_capital * (1 + strategy_return[0])`,
    where the first strategy return is `-(commission + slippage)` exactly when
    the first-date exposure is nonzero (the first `diff` is filled with the
    signal itself, so a run that starts invested is charged the entry cost on
    its first date); the first equity value equals `initial_capital` exactly
    when the first exposure is `0` or `commission + slippage = 0`. -/
theorem c1_first_equity (c0 s0 : ℚ) (cs ss : List ℚ) (cap com slip : ℚ)
    (hrows : 30 ≤ (c0 :: cs).length)
    (hlen : (s0 :: ss).length = (c0 :: cs).length) :
    (simulatePortfolio (c0 :: cs) (s0 :: ss) cap com slip).head? =
      some (cap * (1 - (if s0 = 0 then 0 else com + slip))) ∧
    (s0 = 0 ∨ com + slip = 0 →
      (simulatePortfolio (c0 :: cs) (s0 :: ss) cap com slip).head? = some cap) := by
  have hmain : (simulatePortfolio (c0 :: cs) (s0 :: ss) cap com slip).head? =
      some (cap * (1 - (if s0 = 0 then 0 else com + slip))) := by
    simp only [simulatePortfolio, diffFill, pctChange, List.zipWith_cons_cons,
      List.map_cons, List.scanl_cons, List.singleton_append, List.tail_cons]
    rw [head?_scanl]
    congr 1
    rcases lt_trichotomy s0 0 with h | h | h
    · have hne : ¬ s0 = 0 := ne_of_lt h
      have hb : (decide (0 < s0 - 0) || decide (s0 - 0 < 0)) = true := by simp [h]
      rw [hb, if_pos rfl, if_neg hne]
      ring
    · subst h
      norm_num
    · have hne : ¬ s0 = 0 := ne_of_gt h
      have hb : (decide (0 < s0 - 0) || decide (s0 - 0 < 0)) = true := by simp [h]
      rw [hb, if_pos rfl, if_neg hne]
      ring
  refine ⟨hmain, fun hz => ?_⟩
  rw [hmain]
  rcases hz with hz | hz
  · simp [hz]
  · rcases eq_or_ne s0 0 with h | h <;> simp [h, hz]

/-- C1 witness: a 30-row run that starts flat keeps
    `equity[0] = initial_capital` even with nonzero costs. -/
theorem c1_first_equity_witness :
    (simulatePortfolio ((100 : ℚ) :: List.replicate 29 100)
      ((0 : ℚ) :: List.replicate 29 1) 10000 (1 / 1000) (1 / 1000)).head? =
      some 10000 :=
  (c1_first_equity 100 0 (List.replicate 29 100) (List.replicate 29 1)
    10000 (1 / 1000) (1 / 1000) (by simp) (by simp)).2 (Or.inl rfl)

/-- C1 counterexample: a 30-row series whose exposure (produced by the
    composite strategy from uniformly bullish scores) is `1` on the first
    date, with the default commission and slippage of `0.001` each, has first
    equity value `10000 * (1 - 0.002) = 9980`, not `10000`. -/
theorem c1_counterexample :
    (List.replicate 30 (100 : ℚ)).length = 30 ∧
    ((compositeSignals (List.replicate 30 (some 1))).map (fun k => (k : ℚ))).head? = some 1 ∧
    (simulatePortfolio (List.replicate 30 (100 : ℚ))
      ((compositeSignals (List.replicate 30 (some 1))).map (fun k => (k : ℚ)))
      10000 (1 / 1000) (1 / 1000)).head? = some 9980 ∧
    (9980 : ℚ) ≠ 10000 := by
  refine ⟨by decide, by norm_num [compositeSignals, List.replicate], ?_, by norm_num⟩
  norm_num [simulatePortfolio, compositeSignals, diffFill, pctChange,
    List.replicate, List.scanl]

/-! ## C2 -/

/-- C2: evaluation of `CompositeScoreStrategy.generate_signals` at a score
    series that rises above the buy threshold and then falls back into the
    claimed hold band `[-0.15, 0.15]`.  The code yields exposure `0` on the
    second date, not the held previous exposure `1`: `position` is initialised
    to the all-zero Series, so the `< sell_threshold` mask and the
    `.ffill().fillna(0)` steps are no-ops and no hysteresis takes place. -/
theorem c2_no_hysteresis_eval :
    compositeSignals [some (1 / 5), some 0] = [1, 0] ∧ (0 : ℕ) ≠ 1 := by
  exact ⟨by norm_num [compositeSignals], by decide⟩

/-! ## C7 -/

/-- C7: the maximum drawdown of any positive equity curve is nonpositive, and
    the spec's scenario `[10000, 10100, 9900, 10200]` evaluates to exactly
    `-200/10100`. -/
theorem c7_max_drawdown (pv : List ℚ) (hne : pv ≠ [])
    (hpos : ∀ x ∈ pv, 0 < x) :
    maxDrawdown pv ≤ 0 ∧
    maxDrawdown [10000, 10100, 9900, 10200] = -200 / 10100 := by
  constructor
  · match pv, hne with
    | x :: xs, _ =>
      have hx : (0 : ℚ) < x := hpos x (List.mem_cons_self _ _)
      have hall : ∀ x ∈ xs, (0 : ℚ) < x := fun y hy => hpos y (List.mem_cons_of_mem _ hy)
      have hdd : ∀ d ∈ List.zipWith (fun v mx => (v - mx) / mx) xs (cummaxAux x xs), d ≤ 0 :=
        zip_dd_nonpos xs x hx hall
      have hdef : maxDrawdown (x :: xs) =
          (List.zipWith (fun v mx => (v - mx) / mx) xs (cummaxAux x xs)).foldl min ((x - x) / x) := by
        simp [maxDrawdown, drawdowns, cummax, List.min?]
      rw [hdef]
      exact foldl_min_nonpos _ _ (by simp) hdd
  · norm_num [maxDrawdown, drawdowns, cummax, cummaxAux, List.min?, min_def, max_def]

/-- C7 witness: the scenario curve itself is nonempty and positive, so the
    theorem applies to it and evaluates as claimed. -/
theorem c7_max_drawdown_witness :
    maxDrawdown [10000, 10100, 9900, 10200] ≤ 0 ∧
    maxDrawdown [10000, 10100, 9900, 10200] = -200 / 10100 :=
  c7_max_drawdown [10000, 10100, 9900, 10200] (by decide) (by norm_num)

/-! ## C10 -/

/-- C10: whenever the daily strategy-return series has at most one strictly
    negative entry, the sample standard deviation of the downside returns is
    undefined (pandas `std` with `ddof = 1` is NaN below two samples), the
    guard `downside_std > 0` is false, and `sortino_ratio` is `0` — even
    though a negative day may exist. -/
theorem c10_sortino_guard (rets : List ℚ)
    (h : (downside rets).length ≤ 1) : sortinoRatio rets = some 0 := by
  have hlt : (downside rets).length < 2 := by omega
  simp [sortinoRatio, sampleVar, hlt]

/-- C10 witness: a run with exactly one losing day has sortino ratio `0`. -/
theorem c10_sortino_guard_witness :
    (downside [1 / 100, -2 / 100, 3 / 100]).length ≤ 1 ∧
    sortinoRatio [1 / 100, -2 / 100, 3 / 100] = some 0 :=
  ⟨by norm_num [downside], c10_sortino_guard [1 / 100, -2 / 100, 3 / 100] (by norm_num [downside])⟩

theorem getq_zipWith {α β γ : Type} (f : α → β → γ) (a : List α) (b : List β) (i : ℕ) :
    (List.zipWith f a b)[i]? =
      match a[i]?, b[i]? with
      | some x, some y => some (f x y)
      | _, _ => none := by
  induction a generalizing b i with
  | nil => cases b <;> cases i <;> simp
  | cons x xs ih =>
    cases b with
    | nil => cases i <;> simp
    | cons y ys =>
      cases i with
      | zero => simp
      | succ n => simpa using ih ys n

theorem twoStateStep_mid (lo hi x : ℚ) (h1 : ¬ x < lo) (h2 : ¬ hi < x) (s : Bool) :
    twoStateStep lo hi s x = s := by
  simp [twoStateStep, h1, h2]

theorem twoStateRun_getElem? (lo hi : ℚ) (l : List ℚ) (s : Bool) (i : ℕ) :
    (twoStateRun lo hi s l)[i]? =
      if i < l.length then
        some (if (l.take (i + 1)).foldl (twoStateStep lo hi) s then 1 else 0)
      else none := by
  induction l generalizing s i with
  | nil => simp [twoStateRun]
  | cons x xs ih =>
    cases i with
    | zero => simp [twoStateRun]
    | succ n =>
      simp only [twoStateRun, List.getElem?_cons_succ, ih, List.length_cons,
        Nat.add_lt_add_iff_right, List.take_succ_cons, List.foldl_cons]

theorem compositeSignals_getElem? (xs : List FVal) (t : ℕ) :
    (compositeSignals xs)[t]? = xs[t]?.map (fun x =>
      if x.getD 0 < (-15 : ℚ) / 100 then 0
      else if (15 : ℚ) / 100 < x.getD 0 then 1 else 0) := by
  simp only [compositeSignals]
  rw [getq_zipWith]
  simp only [List.getElem?_map]
  cases xs[t]? <;> simp

theorem goldenCrossSignals_getElem? (a b : List FVal) (t : ℕ) :
    (goldenCrossSignals a b)[t]? =
      match a[t]?, b[t]? with
      | some (some x), some (some y) => some (if y < x then 1 else 0)
      | some _, some _ => some 0
      | _, _ => none := by
  simp only [goldenCrossSignals]
  rw [getq_zipWith]
  rcases a[t]? with _ | xa <;> rcases b[t]? with _ | xb <;> try rfl
  · cases xa <;> rfl
  · cases xa <;> cases xb <;> rfl

theorem rsiSub_some (v : ℚ) : rsiSub (some v) = some (rsiSubQ v) := by
  simp only [rsiSub, rsiSubQ, fgt, flt, Option.map_some, decide_eq_true_eq]
  split_ifs <;> rfl

theorem bbSub_some (v : ℚ) : bbSub (some v) = some (bbSubQ v) := by
  simp only [bbSub, bbSubQ, fgt, flt, Option.map_some, decide_eq_true_eq]
  split_ifs <;> rfl

theorem fgSub_some (v : ℚ) : fgSub (some v) = some (fgSubQ v) := by
  simp only [fgSub, fgSubQ, fgt, flt, Option.map_some, decide_eq_true_eq]
  split_ifs <;> rfl

theorem clip1_bounds (v : ℚ) : -1 ≤ clip1 v ∧ clip1 v ≤ 1 := by
  constructor
  · exact le_max_left _ _
  · exact max_le (by norm_num) (min_le_left _ _)

theorem computeComposite_length (hR hM hB hF : Bool) (rsi macd bb fg : List FVal) (n : ℕ)
    (hr : rsi.length = n) (hm : macd.length = n) (hb : bb.length = n) (hf : fg.length = n) :
    (computeComposite hR hM hB hF rsi macd bb fg n).length = n := by
  cases hR <;> cases hM <;> cases hB <;> cases hF <;>
    simp [computeComposite, macdContrib, hr, hm, hb, hf] <;>
    split_ifs <;> simp [hr, hm, hb, hf]

theorem getq_step (c : Bool) (A B : List FVal) (a b : FVal) (i : ℕ)
    (hA : A[i]? = some a) (hB : B[i]? = some b) :
    (if c = true then List.zipWith fadd A B else A)[i]? =
      some (if c = true then fadd a b else a) := by
  cases c
  · simpa using hA
  · rw [if_pos rfl, if_pos rfl, getq_zipWith, hA, hB]

theorem computeComposite_getElem? (hR hM hB hF : Bool) (rsi macd bb fg : List FVal) (n t : ℕ)
    (hr : rsi.length = n) (hm : macd.length = n) (hb : bb.length = n) (hf : fg.length = n)
    (ht : t < n) :
    (computeComposite hR hM hB hF rsi macd bb fg n)[t]? =
      some (compositeAt hR hM hB hF rsi macd bb fg t) := by
  have h1 : t < rsi.length := by omega
  have h2 : t < bb.length := by omega
  have h3 : t < fg.length := by omega
  have hrs : rsi[t]? = some (rsi.getD t none) := by
    rw [List.getElem?_eq_getElem h1, List.getD_eq_getElem?_getD, List.getElem?_eq_getElem h1]
    rfl
  have hbs : bb[t]? = some (bb.getD t none) := by
    rw [List.getElem?_eq_getElem h2, List.getD_eq_getElem?_getD, List.getElem?_eq_getElem h2]
    rfl
  have hfs : fg[t]? = some (fg.getD t none) := by
    rw [List.getElem?_eq_getElem h3, List.getD_eq_getElem?_getD, List.getElem?_eq_getElem h3]
    rfl
  have h0 : (List.replicate n (some 0 : FVal))[t]? = some (some 0) := by
    simp [List.getElem?_replicate, ht]
  have hc1 : ((rsi.map rsiSub).map (fmulC (1 / 4)))[t]? =
      some (fmulC (1 / 4) (rsiSub (rsi.getD t none))) := by
    rw [List.getElem?_map, List.getElem?_map, hrs]
    rfl
  have hc2 : (macdContrib (macd.map (fun x => x.getD 0)))[t]? =
      some (some (clip1 ((macd.map (fun x => x.getD 0)).getD t 0 /
        macdDenom (macd.map (fun x => x.getD 0)) t) * (1 / 4))) := by
    simp [macdContrib, List.length_map, hm, List.getElem?_map, List.getElem?_range ht]
  have hc3 : ((bb.map bbSub).map (fmulC (1 / 5)))[t]? =
      some (fmulC (1 / 5) (bbSub (bb.getD t none))) := by
    rw [List.getElem?_map, List.getElem?_map, hbs]
    rfl
  have hc4 : ((fg.map fgSub).map (fmulC (3 / 20)))[t]? =
      some (fmulC (3 / 20) (fgSub (fg.getD t none))) := by
    rw [List.getElem?_map, List.getElem?_map, hfs]
    rfl
  have hs1 := getq_step hR _ _ _ _ t h0 hc1
  have hs2 := getq_step hM _ _ _ _ t hs1 hc2
  have hs3 := getq_step hB _ _ _ _ t hs2 hc3
  have hs4 := getq_step hF _ _ _ _ t hs3 hc4
  simp only [computeComposite, compositeAt, List.getElem?_map]
  by_cases hw : (0 : ℚ) < (if hR = true then 1 / 4 else 0) + (if hM = true then 1 / 4 else 0)
      + (if hB = true then 1 / 5 else 0) + (if hF = true then 3 / 20 else 0)
  · rw [if_pos hw, if_pos hw, List.getElem?_map, hs4]
    rfl
  · rw [if_neg hw, if_neg hw, hs4]
    rfl

theorem compositeAt_defined (hR hM hB hF : Bool) (rsi macd bb fg : List FVal) (t : ℕ)
    (hrv : hR = true → (rsi.getD t none).isSome = true)
    (hbv : hB = true → (bb.getD t none).isSome = true)
    (hfv : hF = true → (fg.getD t none).isSome = true) :
    ∃ q : ℚ, compositeAt hR hM hB hF rsi macd bb fg t = some q ∧ -1 ≤ q ∧ q ≤ 1 := by
  simp only [compositeAt]
  have e1 : ∃ v : ℚ,
      (if hR = true then fadd (some 0) (fmulC (1 / 4) (rsiSub (rsi.getD t none))) else some 0) =
        some v := by
    cases hR
    · exact ⟨0, by simp⟩
    · obtain ⟨rv, hrv2⟩ := Option.isSome_iff_exists.mp (hrv rfl)
      refine ⟨0 + rsiSubQ rv * (1 / 4), ?_⟩
      rw [if_pos rfl, hrv2, rsiSub_some]
      rfl
  obtain ⟨v1, h1⟩ := e1
  have e2 : ∃ v : ℚ,
      (if hM = true then
        fadd (if hR = true then fadd (some 0) (fmulC (1 / 4) (rsiSub (rsi.getD t none))) else some 0)
          (some (clip1 ((macd.map (fun x => x.getD 0)).getD t 0 /
            macdDenom (macd.map (fun x => x.getD 0)) t) * (1 / 4)))
      else (if hR = true then fadd (some 0) (fmulC (1 / 4) (rsiSub (rsi.getD t none))) else some 0)) =
        some v := by
    cases hM
    · exact ⟨v1, by simpa using h1⟩
    · refine ⟨v1 + clip1 ((macd.map (fun x => x.getD 0)).getD t 0 /
        macdDenom (macd.map (fun x => x.getD 0)) t) * (1 / 4), ?_⟩
      rw [if_pos rfl, h1]
      rfl
  obtain ⟨v2, h2⟩ := e2
  rw [h2]
  have e3 : ∃ v : ℚ,
      (if hB = true then fadd (some v2) (fmulC (1 / 5) (bbSub (bb.getD t none))) else some v2) =
        some v := by
    cases hB
    · exact ⟨v2, by simp⟩
    · obtain ⟨bv, hbv2⟩ := Option.isSome_iff_exists.mp (hbv rfl)
      refine ⟨v2 + bbSubQ bv * (1 / 5), ?_⟩
      rw [if_pos rfl, hbv2, bbSub_some]
      rfl
  obtain ⟨v3, h3⟩ := e3
  rw [h3]
  have e4 : ∃ v : ℚ,
      (if hF = true then fadd (some v3) (fmulC (3 / 20) (fgSub (fg.getD t none))) else some v3) =
        some v := by
    cases hF
    · exact ⟨v3, by simp⟩
    · obtain ⟨fv, hfv2⟩ := Option.isSome_iff_exists.mp (hfv rfl)
      refine ⟨v3 + fgSubQ fv * (3 / 20), ?_⟩
      rw [if_pos rfl, hfv2, fgSub_some]
      rfl
  obtain ⟨v4, h4⟩ := e4
  rw [h4]
  by_cases hw : (0 : ℚ) < (if hR = true then 1 / 4 else 0) + (if hM = true then 1 / 4 else 0)
      + (if hB = true then 1 / 5 else 0) + (if hF = true then 3 / 20 else 0)
  · rw [if_pos hw]
    exact ⟨clip1 _, rfl, clip1_bounds _⟩
  · rw [if_neg hw]
    exact ⟨clip1 v4, rfl, clip1_bounds _⟩

/-! ## C3 -/

/-- C3 (amended): indicator exclusion is per column, not per date.  For every
    date `t`, the composite score equals `compositeAt`, i.e.
    `clip(sum of present-column weighted sub-scores / sum of present-column
    weights)` evaluated with missing-value propagation (a missing `rsi_14`,
    `bb_pct` or `fear_greed_index` value at `t` makes the score at `t`
    missing; a missing `macd_hist` value is treated as `0`); when no indicator
    column is present at all, the score is `0` on every date. -/
theorem c3_composite_columnwise (hR hM hB hF : Bool) (rsi macd bb fg : List FVal) (n : ℕ)
    (hr : rsi.length = n) (hm : macd.length = n) (hb : bb.length = n) (hf : fg.length = n) :
    computeComposite hR hM hB hF rsi macd bb fg n =
      (List.range n).map (fun t => compositeAt hR hM hB hF rsi macd bb fg t) ∧
    computeComposite false false false false rsi macd bb fg n =
      List.replicate n (some 0) := by
  constructor
  · apply List.ext_getElem?_iff.mpr
    intro i
    by_cases hi : i < n
    · rw [computeComposite_getElem? hR hM hB hF rsi macd bb fg n i hr hm hb hf hi,
        List.getElem?_map, List.getElem?_range hi]
      rfl
    · rw [List.getElem?_eq_none_iff.mpr, List.getElem?_eq_none_iff.mpr]
      · simp only [List.length_map, List.length_range]
        omega
      · rw [computeComposite_length hR hM hB hF rsi macd bb fg n hr hm hb hf]
        omega
  · norm_num [computeComposite, List.map_replicate, fclip1, clip1]

/-- C3 witness: all four columns present and defined on a one-date frame. -/
theorem c3_composite_columnwise_witness :
    computeComposite true true true true [some 50] [some 0] [some (1 / 2)] [some 50] 1 =
      (List.range 1).map
        (fun t => compositeAt true true true true [some 50] [some 0] [some (1 / 2)] [some 50] t) ∧
    computeComposite false false false false [some 50] [some 0] [some (1 / 2)] [some 50] 1 =
      List.replicate 1 (some 0) :=
  c3_composite_columnwise true true true true [some 50] [some 0] [some (1 / 2)] [some 50] 1
    rfl rfl rfl rfl

/-- C3 counterexample: on a one-date frame where only `rsi_14` is missing,
    the code's composite is NaN at that date, while the spec's per-date
    exclusion formula gives `0` (the weighted mean of the three available
    sub-scores): the missing indicator is not excluded, it poisons the date. -/
theorem c3_counterexample :
    computeComposite true true true true [none] [some 0] [some (1 / 2)] [some 50] 1 = [none] ∧
    perDateComposite [none] [some 0] [some (1 / 2)] [some 50] 1 = [some 0] ∧
    ([none] : List FVal) ≠ [some 0] := by
  have hat : compositeAt true true true true [none] [some 0] [some (1 / 2)] [some 50] 0 = none := by
    norm_num [compositeAt, rsiSub, fgt, flt, fadd, fmulC, fclip1]
  refine ⟨?_, ?_, by simp⟩
  · apply List.ext_getElem?_iff.mpr
    intro i
    match i with
    | 0 =>
      rw [computeComposite_getElem? true true true true [none] [some 0] [some (1 / 2)] [some 50] 1 0 rfl rfl rfl rfl (by decide),
        hat]
      rfl
    | j + 1 =>
      rw [List.getElem?_eq_none_iff.mpr, List.getElem?_eq_none_iff.mpr]
      · simp
      · rw [computeComposite_length true true true true [none] [some 0] [some (1 / 2)] [some 50] 1 rfl rfl rfl rfl]
        omega
  · simp only [perDateComposite, List.range_succ, List.range_zero, List.nil_append,
      List.map_cons, List.map_nil, List.getD, List.getElem?_cons_zero, Option.getD_some]
    norm_num [rollMaxAbsF, bbSubQ, fgSubQ, clip1]

/-! ## C4 -/

/-- C4 (amended): on every date where each present indicator column among
    `rsi_14`, `bb_pct`, `fear_greed_index` has a defined value (the
    `macd_hist` column may hold anything, its missing values being filled
    with `0`), the composite score is a defined rational in `[-1, 1]`;
    a date where one of those present columns is missing — e.g. a warm-up
    date — yields a missing score instead (see the counterexample). -/
theorem c4_composite_bounded (hR hM hB hF : Bool) (rsi macd bb fg : List FVal) (n t : ℕ)
    (hr : rsi.length = n) (hm : macd.length = n) (hb : bb.length = n) (hf : fg.length = n)
    (ht : t < n)
    (hrv : hR = true → (rsi.getD t none).isSome = true)
    (hbv : hB = true → (bb.getD t none).isSome = true)
    (hfv : hF = true → (fg.getD t none).isSome = true) :
    ∃ q : ℚ, (computeComposite hR hM hB hF rsi macd bb fg n)[t]? = some (some q) ∧
      -1 ≤ q ∧ q ≤ 1 := by
  rw [computeComposite_getElem? hR hM hB hF rsi macd bb fg n t hr hm hb hf ht]
  obtain ⟨q, hq, hlo, hhi⟩ := compositeAt_defined hR hM hB hF rsi macd bb fg t hrv hbv hfv
  exact ⟨q, by rw [hq], hlo, hhi⟩

/-- C4 witness: a fully-defined one-date frame has a defined score in
    `[-1, 1]`. -/
theorem c4_composite_bounded_witness :
    ∃ q : ℚ,
      (computeComposite true true true true [some 50] [some 0] [some (1 / 2)] [some 50] 1)[0]? =
        some (some q) ∧ -1 ≤ q ∧ q ≤ 1 :=
  c4_composite_bounded true true true true [some 50] [some 0] [some (1 / 2)] [some 50] 1 0
    rfl rfl rfl rfl (by decide) (fun _ => rfl) (fun _ => rfl) (fun _ => rfl)

/-- C4 counterexample: with the `rsi_14` column present but missing on a
    (warm-up) date, the composite score on that date is NaN — not a defined
    number in `[-1, 1]` as claimed. -/
theorem c4_counterexample :
    (computeComposite true true true true [none] [some 0] [some (1 / 2)] [some 50] 1)[0]? =
      some none ∧ ∀ q : ℚ, (none : FVal) ≠ some q := by
  constructor
  · rw [computeComposite_getElem? true true true true [none] [some 0] [some (1 / 2)] [some 50] 1 0 rfl rfl rfl rfl (by decide)]
    norm_num [compositeAt, rsiSub, fgt, flt, fadd, fmulC, fclip1]
  · intro q h
    exact Option.noConfusion h

/-! ## C5 -/

theorem twoStateRun_fill_hold (lo hi : ℚ) (h1 : ¬ (50 : ℚ) < lo) (h2 : ¬ hi < (50 : ℚ))
    (xs : List FVal) (t : ℕ) (ht : t + 1 < xs.length) (hmiss : xs[t + 1]? = some none) :
    (twoStateRun lo hi false (xs.map (fun x => x.getD 50)))[t + 1]? =
      (twoStateRun lo hi false (xs.map (fun x => x.getD 50)))[t]? := by
  have hlen : (xs.map (fun x => x.getD 50)).length = xs.length := List.length_map _ _
  have hcell : (xs.map (fun x => x.getD 50))[t + 1]? = some 50 := by
    rw [List.getElem?_map, hmiss]
    rfl
  have hfold : ((xs.map (fun x => x.getD 50)).take (t + 1 + 1)).foldl (twoStateStep lo hi) false =
      ((xs.map (fun x => x.getD 50)).take (t + 1)).foldl (twoStateStep lo hi) false := by
    rw [List.take_succ, hcell, List.foldl_append]
    simp [twoStateStep_mid lo hi 50 (by simpa using h1) (by simpa using h2)]
  have ha : t + 1 < (xs.map (fun x => x.getD 50)).length := by omega
  have hb : t < (xs.map (fun x => x.getD 50)).length := by omega
  rw [twoStateRun_getElem?, twoStateRun_getElem?, if_pos ha, if_pos hb, hfold]

/-- C5 (amended): no strategy raises on missing data, but only the two
    state-machine variants hold their previous exposure.  Each variant fills
    a missing reading with a neutral constant: the RSI and Fear & Greed
    machines fill `50`, which lies inside their hold bands, so a missing
    reading leaves the exposure equal to the previous date's; the composite
    variant fills score `0`, which under its threshold rule forces exposure
    `0` regardless of the previous exposure; the golden-cross variant treats
    any missing SMA comparison as false and yields exposure `0` regardless of
    the previous exposure. -/
theorem c5_missing_data :
    (∀ (xs : List FVal) (t : ℕ), t + 1 < xs.length → xs[t + 1]? = some none →
      (rsiSignals xs)[t + 1]? = (rsiSignals xs)[t]?) ∧
    (∀ (xs : List FVal) (t : ℕ), t + 1 < xs.length → xs[t + 1]? = some none →
      (fearGreedSignals xs)[t + 1]? = (fearGreedSignals xs)[t]?) ∧
    (∀ (xs : List FVal) (t : ℕ), xs[t]? = some none →
      (compositeSignals xs)[t]? = some 0) ∧
    (∀ (a b : List FVal) (t : ℕ), t < (goldenCrossSignals a b).length →
      (a[t]? = some none ∨ b[t]? = some none) →
      (goldenCrossSignals a b)[t]? = some 0) := by
  refine ⟨?_, ?_, ?_, ?_⟩
  · intro xs t ht hmiss
    exact twoStateRun_fill_hold 30 70 (by norm_num) (by norm_num) xs t ht hmiss
  · intro xs t ht hmiss
    exact twoStateRun_fill_hold 25 75 (by norm_num) (by norm_num) xs t ht hmiss
  · intro xs t hmiss
    rw [compositeSignals_getElem?, hmiss]
    norm_num
  · intro a b t ht hmiss
    have hlen : (goldenCrossSignals a b).length = min a.length b.length := by
      simp [goldenCrossSignals]
    have hta : t < a.length := by omega
    have htb : t < b.length := by omega
    obtain ⟨xa, hxa⟩ : ∃ xa, a[t]? = some xa := ⟨_, List.getElem?_eq_getElem hta⟩
    obtain ⟨xb, hxb⟩ : ∃ xb, b[t]? = some xb := ⟨_, List.getElem?_eq_getElem htb⟩
    rw [goldenCrossSignals_getElem?, hxa, hxb]
    rcases hmiss with h | h
    · rw [hxa] at h
      cases h
      cases xb <;> rfl
    · rw [hxb] at h
      cases h
      cases xa <;> rfl

/-- C5 witness: on a two-date series whose second reading is missing, the RSI
    machine (entered on day one at RSI 20) and the Fear & Greed machine
    (entered at index 10) hold their exposure; the composite strategy on a
    missing score yields exposure 0; the golden cross with a missing SMA at
    its second date yields exposure 0. -/
theorem c5_missing_data_witness :
    (rsiSignals [some 20, none])[1]? = (rsiSignals [some 20, none])[0]? ∧
    (fearGreedSignals [some 10, none])[1]? = (fearGreedSignals [some 10, none])[0]? ∧
    (compositeSignals [none])[0]? = some 0 ∧
    (goldenCrossSignals [some 2, none] [some 1, none])[1]? = some 0 :=
  ⟨c5_missing_data.1 [some 20, none] 0 (by decide) rfl,
   c5_missing_data.2.1 [some 10, none] 0 (by decide) rfl,
   c5_missing_data.2.2.1 [none] 0 rfl,
   c5_missing_data.2.2.2 [some 2, none] [some 1, none] 1 (by decide) (Or.inl rfl)⟩

/-- C5 counterexample: the claim fails for the golden-cross and composite
    variants.  Golden cross: with `sma50 = [2, missing]`, `sma200 =
    [1, missing]` the exposure series is `[1, 0]` — on the missing date the
    exposure changed from 1 to 0 instead of holding.  Composite: with scores
    `[0.2, missing]` the exposure series is `[1, 0]` — again a position
    change on the missing date. -/
theorem c5_counterexample :
    goldenCrossSignals [some 2, none] [some 1, none] = [1, 0] ∧
    compositeSignals [some (1 / 5), none] = [1, 0] ∧ (0 : ℕ) ≠ 1 := by
  refine ⟨by norm_num [goldenCrossSignals], by norm_num [compositeSignals], by decide⟩

/-! ## C8 -/

theorem twoStateRun_causal (lo hi : ℚ) (xs : List FVal) (t : ℕ) (ht : t < xs.length) :
    (twoStateRun lo hi false ((xs.take (t + 1)).map (fun x => x.getD 50)))[t]? =
      (twoStateRun lo hi false (xs.map (fun x => x.getD 50)))[t]? := by
  have hm : (xs.take (t + 1)).map (fun x => x.getD 50) =
      (xs.map (fun x => x.getD 50)).take (t + 1) := List.map_take _ _ _
  rw [twoStateRun_getElem?, twoStateRun_getElem?, hm]
  have hl1 : ((xs.map (fun x => x.getD 50)).take (t + 1)).length = t + 1 := by
    rw [List.length_take, List.length_map]
    omega
  have hl2 : t < (xs.map (fun x => x.getD 50)).length := by
    rw [List.length_map]
    omega
  rw [if_pos (by omega), if_pos hl2, List.take_take, min_self]

theorem compositeAt_take (hR hM hB hF : Bool) (rsi macd bb fg : List FVal) (t : ℕ) :
    compositeAt hR hM hB hF (rsi.take (t + 1)) (macd.take (t + 1)) (bb.take (t + 1))
      (fg.take (t + 1)) t = compositeAt hR hM hB hF rsi macd bb fg t := by
  have hg : ∀ (l : List FVal), (l.take (t + 1)).getD t none = l.getD t none := by
    intro l
    rw [List.getD_eq_getElem?_getD, List.getD_eq_getElem?_getD,
      List.getElem?_take_of_lt (Nat.lt_succ_self t)]
  have hmd : (macd.take (t + 1)).map (fun x => x.getD 0) =
      ((macd.map (fun x => x.getD 0)).take (t + 1)) := List.map_take _ _ _
  have hmg : ((macd.map (fun x => x.getD 0)).take (t + 1)).getD t 0 =
      (macd.map (fun x => x.getD 0)).getD t 0 := by
    rw [List.getD_eq_getElem?_getD, List.getD_eq_getElem?_getD,
      List.getElem?_take_of_lt (Nat.lt_succ_self t)]
  have hroll : rollMaxAbs ((macd.map (fun x => x.getD 0)).take (t + 1)) t =
      rollMaxAbs (macd.map (fun x => x.getD 0)) t := by
    unfold rollMaxAbs
    rw [List.take_take, min_self]
  simp only [compositeAt, hg, hmd, hmg, macdDenom, hroll]

/-- C8: no strategy looks ahead.  For each variant the exposure at date `t`
    computed from the input series truncated after date `t` equals the
    exposure at `t` computed from the full series, and the composite score
    itself (whose only non-pointwise ingredient is a trailing 50-day rolling
    maximum) is likewise causal. -/
theorem c8_no_lookahead :
    (∀ (score : List FVal) (t : ℕ),
      (compositeSignals (score.take (t + 1)))[t]? = (compositeSignals score)[t]?) ∧
    (∀ (rsi : List FVal) (t : ℕ), t < rsi.length →
      (rsiSignals (rsi.take (t + 1)))[t]? = (rsiSignals rsi)[t]?) ∧
    (∀ (fg : List FVal) (t : ℕ), t < fg.length →
      (fearGreedSignals (fg.take (t + 1)))[t]? = (fearGreedSignals fg)[t]?) ∧
    (∀ (a b : List FVal) (t : ℕ),
      (goldenCrossSignals (a.take (t + 1)) (b.take (t + 1)))[t]? =
        (goldenCrossSignals a b)[t]?) ∧
    (∀ (hR hM hB hF : Bool) (rsi macd bb fg : List FVal) (n t : ℕ),
      rsi.length = n → macd.length = n → bb.length = n → fg.length = n → t < n →
      (computeComposite hR hM hB hF (rsi.take (t + 1)) (macd.take (t + 1)) (bb.take (t + 1))
        (fg.take (t + 1)) (t + 1))[t]? =
        (computeComposite hR hM hB hF rsi macd bb fg n)[t]?) := by
  refine ⟨?_, ?_, ?_, ?_, ?_⟩
  · intro score t
    rw [compositeSignals_getElem?, compositeSignals_getElem?,
      List.getElem?_take_of_lt (Nat.lt_succ_self t)]
  · intro rsi t ht
    exact twoStateRun_causal 30 70 rsi t ht
  · intro fg t ht
    exact twoStateRun_causal 25 75 fg t ht
  · intro a b t
    rw [goldenCrossSignals_getElem?, goldenCrossSignals_getElem?,
      List.getElem?_take_of_lt (Nat.lt_succ_self t), List.getElem?_take_of_lt (Nat.lt_succ_self t)]
  · intro hR hM hB hF rsi macd bb fg n t hr hm hb hf ht
    rw [computeComposite_getElem? hR hM hB hF _ _ _ _ (t + 1) t
        (by rw [List.length_take]; omega) (by rw [List.length_take]; omega)
        (by rw [List.length_take]; omega) (by rw [List.length_take]; omega) (Nat.lt_succ_self t),
      computeComposite_getElem? hR hM hB hF rsi macd bb fg n t hr hm hb hf ht,
      compositeAt_take]

/-- C8 witness: the causality statements applied to concrete two-date
    inputs. -/
theorem c8_no_lookahead_witness :
    (compositeSignals ([some 1, some 0].take 1))[0]? = (compositeSignals [some 1, some 0])[0]? ∧
    (rsiSignals ([some 20, some 80].take 1))[0]? = (rsiSignals [some 20, some 80])[0]? ∧
    (fearGreedSignals ([some 10, some 90].take 1))[0]? =
      (fearGreedSignals [some 10, some 90])[0]? ∧
    (goldenCrossSignals ([some 2, some 1].take 1) ([some 1, some 3].take 1))[0]? =
      (goldenCrossSignals [some 2, some 1] [some 1, some 3])[0]? ∧
    (computeComposite true true true true ([some 50, none].take 1) ([some 0, some 1].take 1)
      ([some (1 / 2), none].take 1) ([some 50, none].take 1) 1)[0]? =
      (computeComposite true true true true [some 50, none] [some 0, some 1]
        [some (1 / 2), none] [some 50, none] 2)[0]? :=
  ⟨c8_no_lookahead.1 [some 1, some 0] 0,
   c8_no_lookahead.2.1 [some 20, some 80] 0 (by decide),
   c8_no_lookahead.2.2.1 [some 10, some 90] 0 (by decide),
   c8_no_lookahead.2.2.2.1 [some 2, some 1] [some 1, some 3] 0,
   c8_no_lookahead.2.2.2.2 true true true true [some 50, none] [some 0, some 1]
     [some (1 / 2), none] [some 50, none] 2 0 rfl rfl rfl rfl (by decide)⟩

/-! ## C6 -/

theorem tradeScan_spec (rows : List (ℤ × ℚ × ℕ)) : ∀ (p : ℕ) (st : Option (ℤ × ℚ)),
    (∀ r ∈ rows, r.2.2 ≤ 1) → p ≤ 1 → (st = none ↔ p = 0) →
    tradeScan st (flagRows p rows) = specScan st rows := by
  induction rows with
  | nil =>
    intro p st _ _ _
    rfl
  | cons row rest ih =>
    obtain ⟨d, c, e⟩ := row
    intro p st hall hp hinv
    have he : e ≤ 1 := hall (d, c, e) (List.mem_cons_self _ _)
    have hrest : ∀ r ∈ rest, r.2.2 ≤ 1 := fun r hr => hall r (List.mem_cons_of_mem _ hr)
    cases st with
    | none =>
      have hp0 : p = 0 := hinv.mp rfl
      subst hp0
      rcases (by omega : e = 0 ∨ e = 1) with he0 | he1
      · subst he0
        simp only [flagRows, tradeScan, specScan]
        simp
        exact ih 0 none hrest (by omega) (by simp)
      · subst he1
        simp only [flagRows, tradeScan, specScan]
        simp
        exact ih 1 (some (d, c)) hrest (by omega) (by simp)
    | some pr =>
      have hp1 : p = 1 := by
        rcases (by omega : p = 0 ∨ p = 1) with h0 | h1
        · exact absurd (hinv.mpr h0) (by simp)
        · exact h1
      subst hp1
      obtain ⟨ed, ep⟩ := pr
      rcases (by omega : e = 0 ∨ e = 1) with he0 | he1
      · subst he0
        simp only [flagRows, tradeScan, specScan]
        rw [ih 0 none hrest (by omega) (by simp)]
        simp
      · subst he1
        simp only [flagRows, tradeScan, specScan]
        simp
        exact ih 1 (some (ed, ep)) hrest (by omega) (by simp)

theorem flagRows_getLast? (rows : List (ℤ × ℚ × ℕ)) : ∀ p : ℕ,
    (flagRows p rows).getLast?.map (fun r => (r.1, r.2.1)) =
      rows.getLast?.map (fun r => (r.1, r.2.1)) := by
  induction rows with
  | nil =>
    intro p
    rfl
  | cons row rest ih =>
    obtain ⟨d, c, e⟩ := row
    intro p
    cases rest with
    | nil => rfl
    | cons row2 rest2 =>
      obtain ⟨d2, c2, e2⟩ := row2
      rw [flagRows,
        show flagRows e ((d2, c2, e2) :: rest2) =
          (d2, c2, decide (e < e2), decide (e2 < e)) :: flagRows e2 rest2 from rfl,
        List.getLast?_cons_cons, List.getLast?_cons_cons]
      have := ih e
      rw [flagRows] at this
      exact this

/-- C6: for any `{0,1}` exposure series aligned with dates and closes, the
    trade log built by `_build_trade_log` from the simulation's entry/exit
    flags (`diff > 0` / `diff < 0`, the first difference filled with the
    exposure itself) is exactly the spec's transition scan: a trade opens at
    each `0→1` crossing with entry price that day's close, closes at the next
    `1→0` crossing at that day's close — or is force-closed at the final
    date — and records `return = exit/entry - 1` (rounded to 6 decimals, as
    the code does), the calendar-day duration, and profitability of the
    unrounded return. -/
theorem c6_trade_log (rows : List (ℤ × ℚ × ℕ)) (h01 : ∀ r ∈ rows, r.2.2 ≤ 1) :
    buildTradeLog (flagRows 0 rows) = specTradeLog rows := by
  have hscan := tradeScan_spec rows 0 none h01 (by omega) (by simp)
  have hlast := flagRows_getLast? rows 0
  unfold buildTradeLog specTradeLog
  rw [hscan]
  cases hres : specScan none rows with
  | mk ts st =>
    cases st with
    | none => rfl
    | some pr =>
      obtain ⟨ed, ep⟩ := pr
      cases hl : rows.getLast? with
      | none =>
        have hfl : (flagRows 0 rows).getLast? = none := by
          cases hfl2 : (flagRows 0 rows).getLast? with
          | none => rfl
          | some q =>
            rw [hfl2, hl] at hlast
            simp at hlast
        rw [hfl]
      | some r =>
        obtain ⟨ld, lc, le⟩ := r
        obtain ⟨fe, fx, hfl⟩ : ∃ fe fx, (flagRows 0 rows).getLast? = some (ld, lc, fe, fx) := by
          cases hfl2 : (flagRows 0 rows).getLast? with
          | none =>
            rw [hfl2, hl] at hlast
            simp at hlast
          | some q =>
            obtain ⟨qd, qc, qe, qx⟩ := q
            rw [hfl2, hl] at hlast
            simp at hlast
            obtain ⟨h1, h2⟩ := hlast
            subst h1
            subst h2
            exact ⟨qe, qx, rfl⟩
        rw [hfl]

/-- C6 witness: the spec's scenario — exposure `0→1→0` at closes `50` then
    `60` — yields exactly one trade with entry price 50, exit price 60,
    return `0.20`, duration 1 day, profitable. -/
theorem c6_trade_log_witness :
    (∀ r ∈ ([(0, 40, 0), (1, 50, 1), (2, 60, 0)] : List (ℤ × ℚ × ℕ)), r.2.2 ≤ 1) ∧
    buildTradeLog (flagRows 0 [(0, 40, 0), (1, 50, 1), (2, 60, 0)]) =
      specTradeLog [(0, 40, 0), (1, 50, 1), (2, 60, 0)] ∧
    specTradeLog [(0, 40, 0), (1, 50, 1), (2, 60, 0)] =
      [⟨1, 2, 50, 60, 1 / 5, 1, true⟩] := by
  refine ⟨by decide, c6_trade_log _ (by decide), ?_⟩
  norm_num [specTradeLog, specScan, mkTrade, roundTo6, round_eq]

/-! ## C9 -/

/-- C9: the comparison endpoint fails exactly when every variant's run
    failed; on success it returns a permutation of the successful variants'
    results (a failed variant is silently omitted: a result belongs to the
    returned list iff its variant's run succeeded) sorted by sharpe ratio in
    descending order. -/
theorem c9_compare_strategies (runs : List (Except Unit BResult)) :
    (compareStrategies runs = Except.error () ↔ ∀ r ∈ runs, r = Except.error ()) ∧
    (∀ l, compareStrategies runs = Except.ok l →
      l.Perm (successes runs) ∧ List.Sorted sharpeGe l) ∧
    (∀ x : BResult, x ∈ successes runs ↔ Except.ok x ∈ runs) := by
  refine ⟨?_, ?_, ?_⟩
  · unfold compareStrategies
    by_cases hempty : (successes runs).isEmpty
    · rw [if_pos hempty]
      have hnil : successes runs = [] := List.isEmpty_iff.mp hempty
      refine iff_of_true rfl ?_
      intro r hr
      have := List.filterMap_eq_nil_iff.mp hnil r hr
      cases r with
      | ok v => simp at this
      | error e => rfl
    · rw [if_neg hempty]
      constructor
      · intro h
        exact absurd h (by simp)
      · intro hall
        exfalso
        apply hempty
        apply List.isEmpty_iff.mpr
        apply List.filterMap_eq_nil_iff.mpr
        intro a ha
        rw [hall a ha]
  · intro l hl
    unfold compareStrategies at hl
    by_cases hempty : (successes runs).isEmpty
    · rw [if_pos hempty] at hl
      cases hl
    · rw [if_neg hempty] at hl
      have hl2 : List.insertionSort sharpeGe (successes runs) = l := by
        cases hl
        rfl
      rw [← hl2]
      exact ⟨List.perm_insertionSort sharpeGe (successes runs),
        List.sorted_insertionSort sharpeGe (successes runs)⟩
  · intro x
    unfold successes
    rw [List.mem_filterMap]
    constructor
    · rintro ⟨a, ha, hfa⟩
      cases a with
      | ok v =>
        simp at hfa
        rwa [hfa] at ha
      | error e => simp at hfa
    · intro hx
      exact ⟨Except.ok x, hx, rfl⟩

/-- C9 witness: with one failed variant and two successful ones with sharpe
    ratios 1 and 2, the endpoint succeeds and returns them reordered to
    `[sharpe 2, sharpe 1]` — a sorted permutation of the successes. -/
theorem c9_compare_strategies_witness :
    compareStrategies [Except.error (), Except.ok ⟨0, 1⟩, Except.ok ⟨1, 2⟩] =
      Except.ok [⟨1, 2⟩, ⟨0, 1⟩] ∧
    ([⟨1, 2⟩, ⟨0, 1⟩] : List BResult).Perm
      (successes [Except.error (), Except.ok ⟨0, 1⟩, Except.ok ⟨1, 2⟩]) ∧
    List.Sorted sharpeGe [⟨1, 2⟩, ⟨0, 1⟩] := by
  have hok : compareStrategies [Except.error (), Except.ok ⟨0, 1⟩, Except.ok ⟨1, 2⟩] =
      Except.ok [⟨1, 2⟩, ⟨0, 1⟩] := by
    have h12 : ((1 : ℚ) ≤ 2) = True := by norm_num
    simp only [compareStrategies, successes, List.filterMap, List.insertionSort,
      List.orderedInsert, sharpeGe, List.isEmpty, decide_eq_true_eq, h12]
    norm_num
  have h := (c9_compare_strategies [Except.error (), Except.ok ⟨0, 1⟩, Except.ok ⟨1, 2⟩]).2.1
    [⟨1, 2⟩, ⟨0, 1⟩] hok
  exact ⟨hok, h.1, h.2⟩
